import Mathlib

/-!
Verification development for the go-media-control listings client
(package xtream, file internal/xtream/client.go of the repository, together
with the rendering handlers in package handlers).

The Go code is shallowly embedded as follows.

Slices and aliasing.  Go slices are references into a shared backing array,
and two of the properties under study hinge on whether a slice stored in a
cache shares its backing store with a slice handed to a caller.  We therefore
model a store of slice contents explicitly: a value of type Heap alpha is the
list of all allocated backing arrays, an address is an index into it,
allocation appends, and a write updates one backing array in place.  The
channel cache and the per-stream EPG entries hold addresses into such a heap;
plain record data (strings, integers, categories) is modelled by value, since
no code path mutates it after construction.

Time.  Instants are natural numbers (seconds); Go durations such as
10 minutes and 24 hours become the corresponding second counts.  The zero
time.Time sentinel used for EpgFetchTime is modelled as the none case of an
Option Nat.

The upstream gateway.  The network fetchers perform HTTP requests and JSON
decoding; each public method is modelled as a function of the client state,
the current instant, and an oracle argument describing the outcome of the
single upstream round trip the method may perform (a decoded record list, or
an error).  Everything after that round trip is translated from the source.

Concurrency.  The Go code guards its state with one RWMutex and launches
background work with go statements.  The model is sequential: each method is
a function of the pre-state, and an asynchronous launch is recorded as a
boolean field of the result rather than executed.
-/

namespace cache

/-- Modelled from the spec: the internal/cache package is imported by
internal/xtream/client.go but its source file is not among the provided
files.  Spec section 4.1 defines it as a generic single-slot TTL container:
Get returns present = false if nothing was ever set or if now is at or past
the expiration instant; Set replaces the value and sets the expiration to
now plus the ttl; Clear removes the value regardless of TTL. -/
structure Cache (V : Type) where
  value : Option V
  expiresAt : Nat
  deriving DecidableEq

/-- Modelled from the spec: a fresh cache has nothing set, so any Get on it
returns not-present. -/
def New {V : Type} : Cache V := ⟨none, 0⟩

/-- Modelled from the spec: present iff a value was set and now is strictly
before the expiration instant; expiration is detected lazily at read time. -/
def Get {V : Type} (c : Cache V) (now : Nat) : Option V :=
  if now < c.expiresAt then c.value else none

/-- Modelled from the spec: Set atomically replaces the stored value and
computes the expiration instant as now plus ttl. -/
def Set {V : Type} (_c : Cache V) (v : V) (ttl now : Nat) : Cache V :=
  ⟨some v, now + ttl⟩

/-- Modelled from the spec: Clear removes the value, so a subsequent Get
returns not-present regardless of TTL. -/
def Clear {V : Type} (c : Cache V) : Cache V :=
  ⟨none, c.expiresAt⟩

end cache

/-- A store of Go slice backing arrays: an address is an index into the
list, each cell holding the current contents of one backing array. -/
abbrev Heap (α : Type) : Type := List (List α)

/-- Dereference an address; a never-allocated address reads as empty. -/
def Heap.read {α : Type} (h : Heap α) (a : Nat) : List α :=
  List.getD h a []

/-- Allocate a fresh backing array holding v; returns the extended heap and
the new address. -/
def Heap.alloc {α : Type} (h : Heap α) (v : List α) : Heap α × Nat :=
  (h ++ [v], h.length)

/-- Overwrite the backing array at an address (a caller mutating a slice it
was handed writes through its address). -/
def Heap.write {α : Type} (h : Heap α) (a : Nat) (v : List α) : Heap α :=
  List.set h a v

/-- The number of allocated addresses. -/
def Heap.size {α : Type} (h : Heap α) : Nat := List.length h

/-- EpgListing, translated from internal/xtream/client.go lines 48-57.
Start and End are int64 epoch seconds. -/
structure EpgListing where
  Id : String
  EpgId : String
  ChannelId : String
  Start : Int
  End : Int
  Lang : String
  Title : String
  Description : String
  deriving DecidableEq

/-- MediaItem, translated from internal/xtream/client.go lines 37-45.
CurrentProgram and NextProgram are nil-able pointers in Go, modelled as
options. -/
structure MediaItem where
  Name : String
  StreamID : Int
  Logo : String
  StreamURL : String
  CategoryID : String
  CurrentProgram : Option EpgListing
  NextProgram : Option EpgListing
  deriving DecidableEq

/-- Category, translated from internal/xtream/client.go lines 66-69. -/
structure Category where
  CategoryID : String
  CategoryName : String
  deriving DecidableEq

/-- EpgData, translated from internal/xtream/client.go lines 60-63.  The Epg
field is a Go slice of listings; here it holds the address of that slice's
backing array in the EPG heap.  Raw is the original upstream response text. -/
structure EpgData where
  Epg : Nat
  Raw : String
  deriving DecidableEq

/-- The fields of config.Config that the xtream client reads
(internal/config/config.go; DisableEpgPrefetch is read at client
construction). -/
structure Config where
  XtreamBaseURL : String
  XtreamUsername : String
  XtreamPassword : String
  DisableEpgPrefetch : Bool
  deriving DecidableEq

/-- Client, translated from internal/xtream/client.go lines 21-34.  The
Cache slot holds the address of the cached channel slice's backing array in
the channel heap (Go stores the slice header, which references that array).
The EpgCache holds a map from stream ID to EpgData, modelled as an
association list with map semantics (mapPut below overwrites).  The
httpClient and mutex fields have no counterpart in the sequential model. -/
structure Client where
  BaseURL : String
  Username : String
  Password : String
  Cache : cache.Cache Nat
  CategoryCache : cache.Cache (List Category)
  EpgCache : cache.Cache (List (Int × EpgData))
  streamURLs : List (Int × String)
  EpgFetchTime : Option Nat
  streamIDs : List Int
  disableEpgPrefetch : Bool
  deriving DecidableEq

/-- Go map lookup on an association list: first binding wins (mapPut keeps
at most one binding per key). -/
def mapLookup {κ β : Type} [DecidableEq κ] : List (κ × β) → κ → Option β
  | [], _ => none
  | (k', v) :: rest, k => if k' = k then some v else mapLookup rest k

/-- Go map insertion on an association list: replaces the existing binding
for the key, or appends a new one. -/
def mapPut {κ β : Type} [DecidableEq κ] : List (κ × β) → κ → β → List (κ × β)
  | [], k, v => [(k, v)]
  | (k', v') :: rest, k, v =>
    if k' = k then (k, v) :: rest else (k', v') :: mapPut rest k v

/-- NewClient, translated from internal/xtream/client.go lines 72-94.  The
second component records whether the periodic prefetch goroutine
(prefetchEPGs, lines 259-268, a 24-hour ticker loop) was started: the source
starts it only when disableEpgPrefetch is false. -/
def NewClient (cfg : Config) : Client × Bool :=
  ({ BaseURL := cfg.XtreamBaseURL
     Username := cfg.XtreamUsername
     Password := cfg.XtreamPassword
     Cache := cache.New
     CategoryCache := cache.New
     EpgCache := cache.New
     streamURLs := []
     EpgFetchTime := none
     streamIDs := []
     disableEpgPrefetch := cfg.DisableEpgPrefetch },
   !cfg.DisableEpgPrefetch)

/-- One record of the anonymous struct decoded inside fetchLiveStreams
(internal/xtream/client.go lines 111-116).  The source decodes StreamID as a
json.Number and converts it with strconv.Atoi, ignoring the conversion
error; the oracle supplies the resulting integer directly, since no claim
concerns malformed stream_id strings. -/
structure RawStream where
  Name : String
  StreamID : Int
  Logo : String
  CategoryID : String
  deriving DecidableEq

/-- The MediaItem construction loop of fetchLiveStreams
(internal/xtream/client.go lines 121-133): each decoded record becomes a
MediaItem whose StreamURL is base slash user slash pass slash id dot ts, and
whose enrichment pointers start as nil. -/
def buildMediaItems (base user pass : String) (raw : List RawStream) :
    List MediaItem :=
  raw.map fun item =>
    { Name := item.Name
      StreamID := item.StreamID
      Logo := item.Logo
      StreamURL := base ++ "/" ++ user ++ "/" ++ pass ++ "/" ++
        toString item.StreamID ++ ".ts"
      CategoryID := item.CategoryID
      CurrentProgram := none
      NextProgram := none }

/-- The channel cache TTL: time.Minute times 10
(internal/xtream/client.go line 159), in seconds. -/
def channelTTL : Nat := 10 * 60

/-- The category cache TTL: time.Hour times 24
(internal/xtream/client.go line 212), in seconds. -/
def categoryTTL : Nat := 24 * 60 * 60

/-- The EPG cache TTL: time.Hour times 24
(internal/xtream/client.go lines 352 and 358), in seconds. -/
def epgTTL : Nat := 24 * 60 * 60

/-- The refresh-triggered prefetch staleness threshold: 24 times time.Hour
(internal/xtream/client.go line 166), in seconds. -/
def prefetchInterval : Nat := 24 * 60 * 60

/-- The staleness test of internal/xtream/client.go line 166:
EpgFetchTime.IsZero() or time.Since(EpgFetchTime) exceeds 24 hours.  The
zero time is the none case; Nat subtraction makes a future timestamp read
as elapsed zero, exactly as a negative Go duration fails the comparison. -/
def epgPrefetchDue (c : Client) (now : Nat) : Bool :=
  match c.EpgFetchTime with
  | none => true
  | some t => decide (now - t > prefetchInterval)

/-- The outcome of one GetLiveStreams call. -/
structure GLSResult where
  result : Except String Nat
  state : Client
  heap : Heap MediaItem
  upstreamCalls : Nat
  prefetchLaunched : Bool

/-- GetLiveStreams, translated from internal/xtream/client.go lines 144-173.
On a cache hit the cached address itself is returned (the source returns the
stored slice header, sharing its backing array).  On a miss the upstream
oracle decides: an error is returned unchanged with no state change
(fetchLiveStreams returns on its error paths before touching streamIDs); on
success the fresh item slice is allocated, cached for ten minutes, streamIDs
is rebuilt (fetchLiveStreams lines 135-138 and GetLiveStreams lines 160-163
assign the same list; the net effect is one assignment), and the prefetch
job is launched when not disabled and the staleness test holds, updating
EpgFetchTime to now.  Nothing in this method writes the streamURLs map. -/
def GetLiveStreams (c : Client) (ch : Heap MediaItem) (now : Nat)
    (upstream : Except String (List RawStream)) : GLSResult :=
  match cache.Get c.Cache now with
  | some a => ⟨.ok a, c, ch, 0, false⟩
  | none =>
    match upstream with
    | .error e => ⟨.error e, c, ch, 1, false⟩
    | .ok raw =>
      let items := buildMediaItems c.BaseURL c.Username c.Password raw
      let alloc := Heap.alloc ch items
      let launch := !c.disableEpgPrefetch && epgPrefetchDue c now
      ⟨.ok alloc.2,
       { c with
         Cache := cache.Set c.Cache alloc.2 channelTTL now
         streamIDs := items.map (fun m => m.StreamID)
         EpgFetchTime := if launch then some now else c.EpgFetchTime },
       alloc.1, 1, launch⟩

/-- The outcome of one GetCategories call. -/
structure GCResult where
  result : Except String (List Category)
  state : Client
  upstreamCalls : Nat

/-- GetCategories, translated from internal/xtream/client.go lines 199-215:
cache hit returns the cached list with no upstream call; on a miss a
FetchCategories error is returned unchanged with no state change, and a
success is stored with a 24-hour TTL.  Categories are modelled by value: no
code path mutates a categories slice after it is stored. -/
def GetCategories (c : Client) (now : Nat)
    (upstream : Except String (List Category)) : GCResult :=
  match cache.Get c.CategoryCache now with
  | some cats => ⟨.ok cats, c, 0⟩
  | none =>
    match upstream with
    | .error e => ⟨.error e, c, 1⟩
    | .ok cats =>
      ⟨.ok cats,
       { c with CategoryCache := cache.Set c.CategoryCache cats categoryTTL now },
       1⟩

/-- The possible results of FetchEpgForStream
(internal/xtream/client.go lines 218-256), which is the upstream gateway for
EPG data.  The ok case carries the decoded listing slice (with the base64
title and description decoding of lines 244-253 already applied, a pure
transformation of the oracle data no claim depends on) and the raw response
body.  The fail case carries the raw string the source returns alongside the
error: the empty string for transport, status and body-read failures (lines
224, 229, 234) and the full raw body for a JSON decode failure (line 240). -/
inductive FetchEpgOutcome where
  | ok (epg : List EpgListing) (raw : String)
  | fail (raw : String) (err : String)
  deriving DecidableEq

/-- The copy loop of GetEpgForStream's miss path
(internal/xtream/client.go lines 341-347): every entry of the existing map
is re-created with a freshly allocated copy of its listing slice (the append
of a nil slice with the old contents) and the same raw text. -/
def copyEntries (h : Heap EpgListing) :
    List (Int × EpgData) → Heap EpgListing × List (Int × EpgData)
  | [] => (h, [])
  | (k, e) :: rest =>
    let alloc := Heap.alloc h (Heap.read h e.Epg)
    let tail := copyEntries alloc.1 rest
    (tail.1, (k, ⟨alloc.2, e.Raw⟩) :: tail.2)

/-- The outcome of one GetEpgForStream call.  epg holds the address of the
listing slice returned to the caller, none when the call errored (Go
returns a nil slice there). -/
structure EpgResult where
  epg : Option Nat
  raw : String
  err : Option String
  state : Client
  heap : Heap EpgListing
  upstreamCalls : Nat

/-- The fetch-and-store path of GetEpgForStream
(internal/xtream/client.go lines 330-362), taken when the cache misses.  A
gateway failure is propagated with an empty raw string and no state change
(line 333 returns nil, an empty string and the error, discarding the raw
text the gateway produced).  On success the decoded slice is the value
returned to the caller; the stored map is a fresh copy of the previous map
(if any) with a freshly copied entry for this stream, set with a 24-hour
TTL.  The source reads the cache again under the write lock (line 339);
in the sequential model this second read equals the first. -/
def epgFetchPath (c : Client) (h : Heap EpgListing) (now : Nat)
    (streamID : Int) (upstream : FetchEpgOutcome) : EpgResult :=
  match upstream with
  | .fail _raw e => ⟨none, "", some e, c, h, 1⟩
  | .ok epg raw =>
    let ret := Heap.alloc h epg
    match cache.Get c.EpgCache now with
    | some m =>
      let copied := copyEntries ret.1 m
      let store := Heap.alloc copied.1 epg
      let m' := mapPut copied.2 streamID ⟨store.2, raw⟩
      ⟨some ret.2, raw, none,
       { c with EpgCache := cache.Set c.EpgCache m' epgTTL now },
       store.1, 1⟩
    | none =>
      let store := Heap.alloc ret.1 epg
      ⟨some ret.2, raw, none,
       { c with EpgCache := cache.Set c.EpgCache [(streamID, ⟨store.2, raw⟩)] epgTTL now },
       store.1, 1⟩

/-- GetEpgForStream, translated from internal/xtream/client.go lines
315-363.  A hit (the cache holds a map with an entry for this stream)
returns a freshly allocated copy of the cached listing slice (lines 321-322)
together with the cached raw text, with no upstream call and no state
change; otherwise the fetch-and-store path runs. -/
def GetEpgForStream (c : Client) (h : Heap EpgListing) (now : Nat)
    (streamID : Int) (upstream : FetchEpgOutcome) : EpgResult :=
  match cache.Get c.EpgCache now with
  | some m =>
    match mapLookup m streamID with
    | some e =>
      let alloc := Heap.alloc h (Heap.read h e.Epg)
      ⟨some alloc.2, e.Raw, none, c, alloc.1, 0⟩
    | none => epgFetchPath c h now streamID upstream
  | none => epgFetchPath c h now streamID upstream

/-- GetStreamURL, translated from internal/xtream/client.go lines 366-371:
a pure lookup in the streamURLs map; a missing key yields the zero string
and false, as a Go map read does. -/
def GetStreamURL (c : Client) (streamID : Int) : String × Bool :=
  match mapLookup c.streamURLs streamID with
  | some url => (url, true)
  | none => ("", false)

/-- ClearCache, translated from internal/xtream/client.go lines 374-380: it
clears the channel cache and the EPG cache and replaces streamURLs with a
fresh empty map.  It does not touch CategoryCache or EpgFetchTime. -/
def ClearCache (c : Client) : Client :=
  { c with
    Cache := cache.Clear c.Cache
    EpgCache := cache.Clear c.EpgCache
    streamURLs := [] }

/-- Character-list substring test implementing Go's strings.Contains: the
needle is a prefix of some suffix of the haystack. -/
def containsSub (sub : List Char) : List Char → Bool
  | [] => sub.isEmpty
  | c :: t => sub.isPrefixOf (c :: t) || containsSub sub t

/-- Go's strings.ToLower; Char.toLower agrees with it on the ASCII category
names in scope. -/
def toLowerStr (s : String) : String := ⟨s.data.map Char.toLower⟩

/-- Go's strings.Contains on strings. -/
def goContains (s sub : String) : Bool := containsSub sub.data s.data

/-- The category-map construction of doPrefetchEPGs
(internal/xtream/client.go lines 289-292): a Go map write per category, so a
later binding for the same id overwrites an earlier one. -/
def buildCatMap (cats : List Category) : List (String × String) :=
  cats.foldl (fun m cat => mapPut m cat.CategoryID cat.CategoryName) []

/-- The inclusion test of doPrefetchEPGs line 298: the item's category id
resolves in the category map and the lower-cased name contains the
substring uk. -/
def ukMatch (catMap : List (String × String)) (item : MediaItem) : Bool :=
  match mapLookup catMap item.CategoryID with
  | some catName => goContains (toLowerStr catName) "uk"
  | none => false

/-- The outcome of one doPrefetchEPGs run: the post-state, the number of
upstream calls the run itself performed (the categories fetch when that
cache missed), and the stream IDs for which it scheduled a GetEpgForStream
worker (the bounded-concurrency goroutines of lines 299-310; their later
EPG fetches are separate calls, not counted here). -/
structure PrefetchResult where
  state : Client
  upstreamCalls : Nat
  scheduled : List Int

/-- doPrefetchEPGs, translated from internal/xtream/client.go lines 270-313:
return immediately when prefetch is disabled; read the channel cache
snapshot and return when it is absent; obtain categories through
GetCategories (so this may itself fetch and fill the category cache) and
return scheduling nothing when that errors; otherwise schedule one worker
per cached item whose category matches the uk test, in item order. -/
def doPrefetchEPGs (c : Client) (ch : Heap MediaItem) (now : Nat)
    (catUpstream : Except String (List Category)) : PrefetchResult :=
  if c.disableEpgPrefetch then ⟨c, 0, []⟩
  else
    match cache.Get c.Cache now with
    | none => ⟨c, 0, []⟩
    | some a =>
      let items := Heap.read ch a
      let gc := GetCategories c now catUpstream
      match gc.result with
      | .error _ => ⟨gc.state, gc.upstreamCalls, []⟩
      | .ok cats =>
        let catMap := buildCatMap cats
        ⟨gc.state, gc.upstreamCalls,
         (items.filter (ukMatch catMap)).map (fun m => m.StreamID)⟩

/-- The title shortening of the handlers' EPG enrichment
(src/handlers/handlers.go lines 100-102 and 106-108).  Go measures and
slices bytes; on the ASCII titles in scope this coincides with the
character operations used here. -/
def truncTitle (p : EpgListing) : EpgListing :=
  if p.Title.length > 20 then { p with Title := p.Title.take 20 ++ "..." }
  else p

/-- The program-selection loop of HomeHandler
(src/handlers/handlers.go lines 97-111): a listing containing now becomes
the current program (a later match overwrites an earlier one), and the
first not-yet-started listing becomes the next program; the accumulators
start from the item's existing field values, exactly as the source tests
and assigns the item's own fields in place. -/
def selectPrograms (now : Int) :
    List EpgListing → Option EpgListing → Option EpgListing →
    Option EpgListing × Option EpgListing
  | [], cur, next => (cur, next)
  | p :: rest, cur, next =>
    if now ≥ p.Start ∧ now ≤ p.End then
      selectPrograms now rest (some (truncTitle p)) next
    else if now < p.Start ∧ next = none then
      selectPrograms now rest cur (some (truncTitle p))
    else
      selectPrograms now rest cur next

/-- Enrichment of one item from its EPG listings
(src/handlers/handlers.go lines 90-111). -/
def enrichItem (now : Int) (epg : List EpgListing) (item : MediaItem) :
    MediaItem :=
  let sel := selectPrograms now epg item.CurrentProgram item.NextProgram
  { item with CurrentProgram := sel.1, NextProgram := sel.2 }

/-- The EPG-enrichment phase of HomeHandler
(src/handlers/handlers.go lines 82-123) acting on the channel heap.  The
paginate helper (lines 46-59) returns the subslice of the media slice from
(page - 1) * limit to that plus limit, clamped to the total, sharing the
media slice's backing array; the per-item goroutines then write
CurrentProgram and NextProgram through that subslice, that is, through the
address the handler got from GetLiveStreams.  epgOf gives each stream's
GetEpgForStream listing outcome; on none (an error) the goroutine returns
with the item untouched. -/
def homeEnrichEPG (ch : Heap MediaItem) (a : Nat) (page limit : Nat)
    (now : Int) (epgOf : Int → Option (List EpgListing)) : Heap MediaItem :=
  let media := Heap.read ch a
  let total := media.length
  let start := (page - 1) * limit
  let stop := min (start + limit) total
  Heap.write ch a <| media.mapIdx fun i item =>
    if start ≤ i ∧ i < stop then
      match epgOf item.StreamID with
      | some epg => enrichItem now epg item
      | none => item
    else item

/-- The content a map entry denotes: the listing slice read through its
address, together with the raw text. -/
def lookupContent (h : Heap EpgListing) (m : List (Int × EpgData))
    (k : Int) : Option (List EpgListing × String) :=
  (mapLookup m k).map fun e => (Heap.read h e.Epg, e.Raw)

/-- Every address a map stores is allocated: the well-formedness every
reachable client state enjoys, assumed where a theorem reasons about
reads through cached addresses. -/
def epgWF (c : Client) (h : Heap EpgListing) (now : Nat) : Prop :=
  ∀ m, cache.Get c.EpgCache now = some m →
    ∀ k e, (k, e) ∈ m → e.Epg < Heap.size h

/-- The miss condition of GetEpgForStream for a given stream: the map cache
is absent, or present without an entry for the stream. -/
def epgMiss (c : Client) (now : Nat) (streamID : Int) : Prop :=
  ∀ m, cache.Get c.EpgCache now = some m → mapLookup m streamID = none

/-- One heap extends another by allocation only. -/
def Heap.Grows {α : Type} (h h' : Heap α) : Prop := ∃ t, h' = h ++ t

theorem Heap.grows_refl {α : Type} (h : Heap α) : Heap.Grows h h :=
  ⟨[], by simp⟩

theorem Heap.Grows.trans {α : Type} {h₁ h₂ h₃ : Heap α}
    (g₁ : Heap.Grows h₁ h₂) (g₂ : Heap.Grows h₂ h₃) : Heap.Grows h₁ h₃ := by
  obtain ⟨t₁, rfl⟩ := g₁
  obtain ⟨t₂, rfl⟩ := g₂
  exact ⟨t₁ ++ t₂, by simp⟩

theorem Heap.alloc_grows {α : Type} (h : Heap α) (v : List α) :
    Heap.Grows h (Heap.alloc h v).1 :=
  ⟨[v], rfl⟩

theorem Heap.Grows.size_le {α : Type} {h h' : Heap α}
    (g : Heap.Grows h h') : Heap.size h ≤ Heap.size h' := by
  obtain ⟨t, rfl⟩ := g
  simp [Heap.size]

theorem Heap.Grows.read_lt {α : Type} {h h' : Heap α} (g : Heap.Grows h h')
    {a : Nat} (hlt : a < Heap.size h) : Heap.read h' a = Heap.read h a := by
  obtain ⟨t, rfl⟩ := g
  simp only [Heap.read, List.getD]
  rw [List.get?_append hlt]

theorem Heap.read_alloc_self {α : Type} (h : Heap α) (v : List α) :
    Heap.read (Heap.alloc h v).1 (Heap.alloc h v).2 = v := by
  simp only [Heap.read, Heap.alloc, List.getD]
  rw [List.get?_append_right (Nat.le_refl _)]
  simp

theorem Heap.size_alloc {α : Type} (h : Heap α) (v : List α) :
    Heap.size (Heap.alloc h v).1 = Heap.size h + 1 := by
  simp [Heap.size, Heap.alloc]

theorem Heap.read_write_ne {α : Type} (h : Heap α) (v : List α)
    {a b : Nat} (hne : a ≠ b) : Heap.read (Heap.write h b v) a = Heap.read h a := by
  simp only [Heap.read, Heap.write, List.getD]
  rw [List.get?_set_ne _ _ (fun hh => hne hh.symm)]

theorem mapLookup_mem {κ β : Type} [DecidableEq κ] {m : List (κ × β)}
    {k : κ} {v : β} (hl : mapLookup m k = some v) : (k, v) ∈ m := by
  induction m with
  | nil => simp [mapLookup] at hl
  | cons p rest ih =>
    obtain ⟨k', v'⟩ := p
    by_cases hk : k' = k
    · subst hk
      simp [mapLookup] at hl
      simp [hl]
    · simp [mapLookup, hk] at hl
      exact List.mem_cons_of_mem _ (ih hl)

theorem mapPut_mem {κ β : Type} [DecidableEq κ] {m : List (κ × β)}
    {k₀ k : κ} {v₀ v : β} (hm : (k, v) ∈ mapPut m k₀ v₀) :
    (k, v) ∈ m ∨ (k = k₀ ∧ v = v₀) := by
  induction m with
  | nil =>
    simp [mapPut] at hm
    exact Or.inr ⟨hm.1, hm.2⟩
  | cons p rest ih =>
    obtain ⟨k', v'⟩ := p
    by_cases hk : k' = k₀
    · subst hk
      simp only [mapPut, if_pos rfl] at hm
      rcases List.mem_cons.mp hm with h | h
      · exact Or.inr ⟨congrArg Prod.fst h, congrArg Prod.snd h⟩
      · exact Or.inl (List.mem_cons_of_mem _ h)
    · simp only [mapPut, if_neg hk] at hm
      rcases List.mem_cons.mp hm with h | h
      · exact Or.inl (List.mem_cons.mpr (Or.inl h))
      · rcases ih h with h' | h'
        · exact Or.inl (List.mem_cons_of_mem _ h')
        · exact Or.inr h'

theorem mapLookup_put_self {κ β : Type} [DecidableEq κ] (m : List (κ × β))
    (k : κ) (v : β) : mapLookup (mapPut m k v) k = some v := by
  induction m with
  | nil => simp [mapPut, mapLookup]
  | cons p rest ih =>
    obtain ⟨k', v'⟩ := p
    by_cases hk : k' = k
    · subst hk
      simp [mapPut, mapLookup]
    · simp [mapPut, mapLookup, hk, ih]

theorem mapLookup_put_ne {κ β : Type} [DecidableEq κ] (m : List (κ × β))
    {k k' : κ} (v : β) (hne : k' ≠ k) :
    mapLookup (mapPut m k v) k' = mapLookup m k' := by
  induction m with
  | nil =>
    have hkk : ¬ k = k' := fun hh => hne hh.symm
    simp [mapPut, mapLookup, hkk]
  | cons p rest ih =>
    obtain ⟨k₁, v₁⟩ := p
    by_cases hk : k₁ = k
    · subst hk
      have hkk : ¬ k₁ = k' := fun hh => hne hh.symm
      simp [mapPut, mapLookup, hkk]
    · simp [mapPut, mapLookup, hk, ih]

theorem cache.get_clear {V : Type} (c : cache.Cache V) (now : Nat) :
    cache.Get (cache.Clear c) now = none := by
  simp [cache.Get, cache.Clear]

theorem cache.get_set {V : Type} (c : cache.Cache V) (v : V)
    (ttl now t : Nat) (hlt : t < now + ttl) :
    cache.Get (cache.Set c v ttl now) t = some v := by
  simp [cache.Get, cache.Set, hlt]

theorem lookupContent_grows {h h' : Heap EpgListing}
    {m : List (Int × EpgData)}
    (wf : ∀ k e, (k, e) ∈ m → e.Epg < Heap.size h)
    (g : Heap.Grows h h') (k : Int) :
    lookupContent h' m k = lookupContent h m k := by
  unfold lookupContent
  cases hl : mapLookup m k with
  | none => rfl
  | some e => simp [g.read_lt (wf _ _ (mapLookup_mem hl))]

theorem copyEntries_spec (m : List (Int × EpgData)) (h : Heap EpgListing)
    (wf : ∀ k e, (k, e) ∈ m → e.Epg < Heap.size h) :
    Heap.Grows h (copyEntries h m).1 ∧
    (∀ k e, (k, e) ∈ (copyEntries h m).2 →
      Heap.size h ≤ e.Epg ∧ e.Epg < Heap.size (copyEntries h m).1) ∧
    (∀ k, lookupContent (copyEntries h m).1 (copyEntries h m).2 k =
      lookupContent h m k) := by
  induction m generalizing h with
  | nil =>
    refine ⟨Heap.grows_refl h, ?_, ?_⟩ <;>
      simp [copyEntries, lookupContent, mapLookup]
  | cons p rest ih =>
    obtain ⟨k₀, e₀⟩ := p
    have wfrest : ∀ k e, (k, e) ∈ rest → e.Epg < Heap.size h :=
      fun k e hm => wf k e (List.mem_cons_of_mem _ hm)
    have wfrest1 : ∀ k e, (k, e) ∈ rest →
        e.Epg < Heap.size (Heap.alloc h (Heap.read h e₀.Epg)).1 := by
      intro k e hm
      rw [Heap.size_alloc]
      exact Nat.lt_succ_of_lt (wfrest k e hm)
    obtain ⟨ihg, ihb, ihl⟩ := ih _ wfrest1
    have hsz : Heap.size h <
        Heap.size (Heap.alloc h (Heap.read h e₀.Epg)).1 := by
      rw [Heap.size_alloc]; exact Nat.lt_succ_self _
    refine ⟨Heap.Grows.trans (Heap.alloc_grows _ _) ihg, ?_, ?_⟩
    · intro k e hm
      simp only [copyEntries] at hm
      rcases List.mem_cons.mp hm with heq | hm'
      · have h1 : e.Epg = Heap.size h := by
          have := congrArg Prod.snd heq
          simp at this
          rw [this]
          rfl
        constructor
        · exact Nat.le_of_eq h1.symm
        · calc e.Epg = Heap.size h := h1
            _ < Heap.size (Heap.alloc h (Heap.read h e₀.Epg)).1 := hsz
            _ ≤ _ := by simpa [copyEntries] using ihg.size_le
      · have := ihb k e hm'
        constructor
        · calc Heap.size h
              ≤ Heap.size (Heap.alloc h (Heap.read h e₀.Epg)).1 :=
                Nat.le_of_lt hsz
            _ ≤ e.Epg := this.1
        · simpa [copyEntries] using this.2
    · intro k
      by_cases hk : k₀ = k
      · subst hk
        simp only [copyEntries, lookupContent, mapLookup, if_pos rfl,
          Option.map_some]
        have hread : Heap.read (copyEntries (Heap.alloc h (Heap.read h e₀.Epg)).1 rest).1
            (Heap.alloc h (Heap.read h e₀.Epg)).2 = Heap.read h e₀.Epg := by
          rw [ihg.read_lt (by rw [Heap.size_alloc]; exact Nat.lt_succ_self _),
            Heap.read_alloc_self]
        simp [hread]
      · simp only [copyEntries, lookupContent, mapLookup, if_neg hk]
        have step : lookupContent (copyEntries (Heap.alloc h (Heap.read h e₀.Epg)).1 rest).1
            (copyEntries (Heap.alloc h (Heap.read h e₀.Epg)).1 rest).2 k =
            lookupContent (Heap.alloc h (Heap.read h e₀.Epg)).1 rest k := ihl k
        have step2 : lookupContent (Heap.alloc h (Heap.read h e₀.Epg)).1 rest k =
            lookupContent h rest k :=
          lookupContent_grows wfrest (Heap.alloc_grows _ _) k
        simpa [lookupContent] using step.trans step2

/-- A configuration with EPG prefetch disabled, for concrete runs. -/
def cfgOff : Config := ⟨"http://h", "u", "p", true⟩

/-- A configuration with EPG prefetch enabled, for concrete runs. -/
def cfgOn : Config := ⟨"http://h", "u", "p", false⟩

/-- One upstream channel record with stream id 1 in category 7. -/
def rawA : List RawStream := [⟨"A", 1, "logo", "7"⟩]

/-- One upstream category list binding id 7 to the name UK News. -/
def catsUK : List Category := [⟨"7", "UK News"⟩]

/-- The client state after a successful channel refresh at instant 5 with
prefetch enabled (so the last-prefetch timestamp is set to 5). -/
def clientAfterRefresh : Client :=
  (GetLiveStreams (NewClient cfgOn).1 [] 5 (.ok rawA)).state

/-- The previous state after additionally filling the category cache at
instant 6. -/
def clientWithCats : Client :=
  (GetCategories clientAfterRefresh 6 (.ok catsUK)).state

/-- Claim C1: the claim says a successful channel fetch rebuilds the
stream-URL index so that GetStreamURL finds every fetched channel.  The
code never writes the streamURLs map (fetchLiveStreams and GetLiveStreams
rebuild the dead streamIDs list instead), so after a successful fetch of
the channel with stream id 1 - whose constructed MediaItem does carry the
playback URL http colon slash slash h slash u slash p slash 1.ts -
GetStreamURL on the post-state still returns the empty string and false.
This contradicts the GetStreamURL and ClearCache doc comments and leaves
the SendHandler consumer permanently unable to resolve any channel. -/
theorem getStreamURL_not_found_after_successful_fetch :
    (GetLiveStreams (NewClient cfgOff).1 [] 0 (.ok rawA)).result = .ok 0 ∧
    Heap.read (GetLiveStreams (NewClient cfgOff).1 [] 0 (.ok rawA)).heap 0 =
      buildMediaItems "http://h" "u" "p" rawA ∧
    (buildMediaItems "http://h" "u" "p" rawA).map (fun m => m.StreamURL) =
      ["http://h/u/p/1.ts"] ∧
    (GetLiveStreams (NewClient cfgOff).1 [] 0 (.ok rawA)).state.streamURLs = [] ∧
    GetStreamURL (GetLiveStreams (NewClient cfgOff).1 [] 0 (.ok rawA)).state 1 =
      ("", false) := by
  refine ⟨rfl, by decide, by decide, rfl, rfl⟩

/-- Claim C2 counterexample: in the concrete state reached by a channel
refresh at instant 5 (which set the last-prefetch timestamp) and a category
fetch at instant 6, calling ClearCache and then GetCategories at instant 10
performs zero upstream calls and serves the old category list from the
cache, and the last-prefetch timestamp is still 5 - against the claim that
ClearCache clears all three caches and resets the timestamp, forcing one
new upstream call per resource. -/
theorem clearCache_spares_categories_counterexample :
    (GetCategories (ClearCache clientWithCats) 10 (.error "down")).upstreamCalls
      = 0 ∧
    (GetCategories (ClearCache clientWithCats) 10 (.error "down")).result =
      .ok catsUK ∧
    (ClearCache clientWithCats).EpgFetchTime = some 5 := by
  refine ⟨by decide, rfl, by decide⟩

/-- Claim C2 amended: ClearCache clears the channel and program-guide
caches and resets the stream-URL index, so the next GetLiveStreams and the
next GetEpgForStream each perform one new upstream call; but it leaves the
category cache and the last-prefetch timestamp untouched, so a
GetCategories whose previous cache entry has not expired still hits the
cache with no upstream call. -/
theorem clearCache_resets_channel_epg_url_only (c : Client) :
    (ClearCache c).Cache.value = none ∧
    (ClearCache c).EpgCache.value = none ∧
    (ClearCache c).streamURLs = [] ∧
    (ClearCache c).CategoryCache = c.CategoryCache ∧
    (ClearCache c).EpgFetchTime = c.EpgFetchTime ∧
    (∀ ch now u, (GetLiveStreams (ClearCache c) ch now u).upstreamCalls = 1) ∧
    (∀ h now sid u, (GetEpgForStream (ClearCache c) h now sid u).upstreamCalls = 1) ∧
    (∀ now u cats, cache.Get c.CategoryCache now = some cats →
      (GetCategories (ClearCache c) now u).result = .ok cats ∧
      (GetCategories (ClearCache c) now u).upstreamCalls = 0) := by
  refine ⟨rfl, rfl, rfl, rfl, rfl, ?_, ?_, ?_⟩
  · intro ch now u
    have hc : cache.Get (ClearCache c).Cache now = none := cache.get_clear _ _
    cases u <;> simp [GetLiveStreams, hc]
  · intro h now sid u
    have hc : cache.Get (ClearCache c).EpgCache now = none := cache.get_clear _ _
    cases u <;> simp [GetEpgForStream, hc, epgFetchPath]
  · intro now u cats hcat
    have hc : cache.Get (ClearCache c).CategoryCache now = some cats := hcat
    simp [GetCategories, hc]

/-- Witness for the amended C2 theorem at the concrete post-refresh state. -/
theorem clearCache_resets_channel_epg_url_only_witness :
    (GetCategories (ClearCache clientWithCats) 10 (.ok [])).result =
      .ok catsUK := by
  exact ((clearCache_resets_channel_epg_url_only clientWithCats).2.2.2.2.2.2.2
    10 (.ok []) catsUK (by decide)).1

/-- Claim C4: when its cache misses and the gateway errors, each of
GetLiveStreams, GetCategories and GetEpgForStream returns that error
unchanged and leaves the client state and both heaps exactly as they were:
no cache and no index is written. -/
theorem gateway_error_leaves_state_untouched (c : Client)
    (ch : Heap MediaItem) (h : Heap EpgListing) (now : Nat) (e : String)
    (sid : Int) (raw : String)
    (hch : cache.Get c.Cache now = none)
    (hcat : cache.Get c.CategoryCache now = none)
    (hepg : epgMiss c now sid) :
    GetLiveStreams c ch now (.error e) = ⟨.error e, c, ch, 1, false⟩ ∧
    GetCategories c now (.error e) = ⟨.error e, c, 1⟩ ∧
    GetEpgForStream c h now sid (.fail raw e) = ⟨none, "", some e, c, h, 1⟩ := by
  refine ⟨?_, ?_, ?_⟩
  · simp [GetLiveStreams, hch]
  · simp [GetCategories, hcat]
  · cases hm : cache.Get c.EpgCache now with
    | none => simp [GetEpgForStream, hm, epgFetchPath]
    | some m => simp [GetEpgForStream, hm, hepg m hm, epgFetchPath]

/-- Witness for C4 on a fresh client. -/
theorem gateway_error_leaves_state_untouched_witness :
    GetCategories (NewClient cfgOff).1 0 (.error "boom") =
      ⟨.error "boom", (NewClient cfgOff).1, 1⟩ := by
  exact (gateway_error_leaves_state_untouched (NewClient cfgOff).1 [] [] 0
    "boom" 1 "" rfl rfl (fun m hm => Option.noConfusion hm)).2.1

/-- Claim C10: whenever the upstream EPG fetch fails on the cache-miss
path - including the JSON decode failure, for which FetchEpgForStream
returns the raw body text alongside the error - GetEpgForStream hands its
caller an empty raw string with the error, a nil listing, and an untouched
state and heap: the raw body the inner fetch produced is discarded at the
public interface. -/
theorem epg_fetch_failure_returns_empty_raw (c : Client)
    (h : Heap EpgListing) (now : Nat) (sid : Int) (raw err : String)
    (hepg : epgMiss c now sid) :
    (GetEpgForStream c h now sid (.fail raw err)).raw = "" ∧
    (GetEpgForStream c h now sid (.fail raw err)).err = some err ∧
    (GetEpgForStream c h now sid (.fail raw err)).epg = none ∧
    (GetEpgForStream c h now sid (.fail raw err)).state = c ∧
    (GetEpgForStream c h now sid (.fail raw err)).heap = h := by
  cases hm : cache.Get c.EpgCache now with
  | none => simp [GetEpgForStream, hm, epgFetchPath]
  | some m => simp [GetEpgForStream, hm, hepg m hm, epgFetchPath]

/-- Witness for C10: a decode-style failure carrying a raw body reaches the
caller with the raw string emptied. -/
theorem epg_fetch_failure_returns_empty_raw_witness :
    (GetEpgForStream (NewClient cfgOff).1 [] 0 1
      (.fail "not json" "decode failed")).raw = "" := by
  exact (epg_fetch_failure_returns_empty_raw (NewClient cfgOff).1 [] 0 1
    "not json" "decode failed" (fun m hm => Option.noConfusion hm)).1

/-- Claim C6: two GetLiveStreams calls within the channel TTL window, the
second after the first completed successfully, perform one upstream call in
total: the first misses, fetches once and caches the fresh slice; the
second hits, returning the same slice reference - hence the identical,
order-preserved list - with zero upstream calls and no state change; and in
general a cache hit returns the cached value with no upstream call. -/
theorem getLiveStreams_ttl_window_single_fetch (c : Client)
    (ch : Heap MediaItem) (t0 t1 : Nat) (raw : List RawStream)
    (u2 : Except String (List RawStream))
    (hmiss : cache.Get c.Cache t0 = none)
    (h01 : t1 < t0 + channelTTL) :
    (GetLiveStreams c ch t0 (.ok raw)).upstreamCalls = 1 ∧
    (GetLiveStreams (GetLiveStreams c ch t0 (.ok raw)).state
      (GetLiveStreams c ch t0 (.ok raw)).heap t1 u2).upstreamCalls = 0 ∧
    (GetLiveStreams (GetLiveStreams c ch t0 (.ok raw)).state
      (GetLiveStreams c ch t0 (.ok raw)).heap t1 u2).result =
      (GetLiveStreams c ch t0 (.ok raw)).result ∧
    (GetLiveStreams (GetLiveStreams c ch t0 (.ok raw)).state
      (GetLiveStreams c ch t0 (.ok raw)).heap t1 u2).state =
      (GetLiveStreams c ch t0 (.ok raw)).state ∧
    (GetLiveStreams (GetLiveStreams c ch t0 (.ok raw)).state
      (GetLiveStreams c ch t0 (.ok raw)).heap t1 u2).heap =
      (GetLiveStreams c ch t0 (.ok raw)).heap ∧
    (GetLiveStreams c ch t0 (.ok raw)).result =
      .ok (Heap.alloc ch (buildMediaItems c.BaseURL c.Username c.Password raw)).2 ∧
    Heap.read (GetLiveStreams c ch t0 (.ok raw)).heap
      (Heap.alloc ch (buildMediaItems c.BaseURL c.Username c.Password raw)).2 =
      buildMediaItems c.BaseURL c.Username c.Password raw ∧
    (buildMediaItems c.BaseURL c.Username c.Password raw).map (fun m => m.Name)
      = raw.map (fun r => r.Name) ∧
    (∀ c' ch' now u a, cache.Get c'.Cache now = some a →
      GetLiveStreams c' ch' now u = ⟨.ok a, c', ch', 0, false⟩) := by
  have hset := cache.get_set c.Cache
    (Heap.alloc ch (buildMediaItems c.BaseURL c.Username c.Password raw)).2
    channelTTL t0 t1 h01
  refine ⟨?_, ?_, ?_, ?_, ?_, ?_, ?_, ?_, ?_⟩
  · simp [GetLiveStreams, hmiss]
  · simp [GetLiveStreams, hmiss, hset]
  · simp [GetLiveStreams, hmiss, hset]
  · simp [GetLiveStreams, hmiss, hset]
  · simp [GetLiveStreams, hmiss, hset]
  · simp [GetLiveStreams, hmiss]
  · simp [GetLiveStreams, hmiss, Heap.read_alloc_self]
  · simp [buildMediaItems, List.map_map, Function.comp]
  · intro c' ch' now u a ha
    simp [GetLiveStreams, ha]

/-- Witness for C6 at a concrete fresh client and two instants 0 and 100. -/
theorem getLiveStreams_ttl_window_single_fetch_witness :
    (GetLiveStreams (GetLiveStreams (NewClient cfgOff).1 [] 0 (.ok rawA)).state
      (GetLiveStreams (NewClient cfgOff).1 [] 0 (.ok rawA)).heap 100
      (.error "x")).upstreamCalls = 0 :=
  (getLiveStreams_ttl_window_single_fetch (NewClient cfgOff).1 [] 0 100 rawA
    (.error "x") rfl (by decide)).2.1

/-- Claim C8: on a successful channel refresh the prefetch launch flag is
true exactly when prefetching is enabled and the last-prefetch timestamp is
unset or older than 24 hours, in which case the timestamp becomes now and
otherwise is unchanged; and for a client constructed with prefetching
disabled the periodic loop is not started, no GetLiveStreams call ever
launches a run, and doPrefetchEPGs itself refuses to run.  The go statement
is modelled by the launch flag: the result is produced without executing
the job, which is the fire-and-forget behaviour. -/
theorem prefetch_trigger_policy (c : Client) (ch : Heap MediaItem)
    (now : Nat) (raw : List RawStream)
    (hmiss : cache.Get c.Cache now = none) :
    ((GetLiveStreams c ch now (.ok raw)).prefetchLaunched = true ↔
      (c.disableEpgPrefetch = false ∧ (c.EpgFetchTime = none ∨
        ∃ t, c.EpgFetchTime = some t ∧ now - t > prefetchInterval))) ∧
    ((GetLiveStreams c ch now (.ok raw)).prefetchLaunched = true →
      (GetLiveStreams c ch now (.ok raw)).state.EpgFetchTime = some now) ∧
    ((GetLiveStreams c ch now (.ok raw)).prefetchLaunched = false →
      (GetLiveStreams c ch now (.ok raw)).state.EpgFetchTime =
        c.EpgFetchTime) ∧
    (∀ cfg : Config, cfg.DisableEpgPrefetch = true →
      (NewClient cfg).2 = false) ∧
    (∀ c' : Client, c'.disableEpgPrefetch = true →
      ∀ ch' now' u, (GetLiveStreams c' ch' now' u).prefetchLaunched = false) ∧
    (∀ c' : Client, c'.disableEpgPrefetch = true →
      ∀ ch' now' cu, doPrefetchEPGs c' ch' now' cu = ⟨c', 0, []⟩) := by
  refine ⟨?_, ?_, ?_, ?_, ?_, ?_⟩
  · simp only [GetLiveStreams, hmiss]
    cases hd : c.disableEpgPrefetch <;> cases ht : c.EpgFetchTime <;>
      simp [epgPrefetchDue, hd, ht]
  · simp only [GetLiveStreams, hmiss]
    intro hl
    simp [hl]
  · simp only [GetLiveStreams, hmiss]
    intro hl
    simp [hl]
  · intro cfg hcfg
    simp [NewClient, hcfg]
  · intro c' hd ch' now' u
    cases hg : cache.Get c'.Cache now' with
    | some a => simp [GetLiveStreams, hg]
    | none => cases u <;> simp [GetLiveStreams, hg, hd]
  · intro c' hd ch' now' cu
    simp [doPrefetchEPGs, hd]

/-- Witness for C8: a fresh enabled client with unset timestamp launches
the prefetch job on its first successful refresh. -/
theorem prefetch_trigger_policy_witness :
    (GetLiveStreams (NewClient cfgOn).1 [] 7 (.ok rawA)).prefetchLaunched =
      true :=
  (prefetch_trigger_policy (NewClient cfgOn).1 [] 7 rawA rfl).1.mpr
    ⟨rfl, Or.inl rfl⟩

/-- The uk inclusion test unfolded: a match holds exactly when the
category id resolves and the lower-cased name contains uk. -/
theorem ukMatch_iff (catMap : List (String × String)) (item : MediaItem) :
    ukMatch catMap item = true ↔
      ∃ catName, mapLookup catMap item.CategoryID = some catName ∧
        goContains (toLowerStr catName) "uk" = true := by
  unfold ukMatch
  cases hl : mapLookup catMap item.CategoryID <;> simp [hl]

/-- Claim C7: a doPrefetchEPGs run whose channel-cache snapshot is absent
(the cache empty or not yet populated, in the spec's words) performs no
upstream call, changes no state and schedules nothing; otherwise, when the
categories resolve - through the category cache or a successful fetch - it
schedules a GetEpgForStream worker exactly for the cached channels whose
resolved category name contains uk case-insensitively, in item order, and
its only state change and upstream call are those of its GetCategories
step. -/
theorem doPrefetch_schedules_uk_channels (c : Client) (ch : Heap MediaItem)
    (now : Nat) (cu : Except String (List Category)) :
    (cache.Get c.Cache now = none → doPrefetchEPGs c ch now cu = ⟨c, 0, []⟩) ∧
    (∀ a cats, c.disableEpgPrefetch = false →
      cache.Get c.Cache now = some a →
      (GetCategories c now cu).result = .ok cats →
      (doPrefetchEPGs c ch now cu).scheduled =
        ((Heap.read ch a).filter (ukMatch (buildCatMap cats))).map
          (fun m => m.StreamID) ∧
      (doPrefetchEPGs c ch now cu).state = (GetCategories c now cu).state ∧
      (doPrefetchEPGs c ch now cu).upstreamCalls =
        (GetCategories c now cu).upstreamCalls ∧
      (∀ sid, sid ∈ (doPrefetchEPGs c ch now cu).scheduled ↔
        ∃ item ∈ Heap.read ch a, item.StreamID = sid ∧
          ∃ catName,
            mapLookup (buildCatMap cats) item.CategoryID = some catName ∧
            goContains (toLowerStr catName) "uk" = true)) := by
  constructor
  · intro hnone
    by_cases hd : c.disableEpgPrefetch <;> simp [doPrefetchEPGs, hd, hnone]
  · intro a cats hd ha hcats
    have hsched : (doPrefetchEPGs c ch now cu).scheduled =
        ((Heap.read ch a).filter (ukMatch (buildCatMap cats))).map
          (fun m => m.StreamID) := by
      simp [doPrefetchEPGs, hd, ha, hcats]
    refine ⟨hsched, ?_, ?_, ?_⟩
    · simp [doPrefetchEPGs, hd, ha, hcats]
    · simp [doPrefetchEPGs, hd, ha, hcats]
    · intro sid
      rw [hsched]
      constructor
      · intro hmem
        obtain ⟨item, hitem, hsid⟩ := List.mem_map.mp hmem
        have hf := List.mem_filter.mp hitem
        obtain ⟨catName, hcn, hcontains⟩ := (ukMatch_iff _ _).mp hf.2
        exact ⟨item, hf.1, hsid, catName, hcn, hcontains⟩
      · rintro ⟨item, hmem, hsid, catName, hcn, hcontains⟩
        exact List.mem_map.mpr ⟨item, List.mem_filter.mpr ⟨hmem,
          (ukMatch_iff _ _).mpr ⟨catName, hcn, hcontains⟩⟩, hsid⟩

/-- The channel heap produced by the refresh behind clientAfterRefresh. -/
def chanHeap : Heap MediaItem :=
  (GetLiveStreams (NewClient cfgOn).1 [] 5 (.ok rawA)).heap

/-- Witness for C7 at the concrete post-refresh state: the cached channel
in category UK News is scheduled via the filter characterisation. -/
theorem doPrefetch_schedules_uk_channels_witness :
    (doPrefetchEPGs clientWithCats chanHeap 10 (.error "x")).scheduled =
      ((Heap.read chanHeap 0).filter (ukMatch (buildCatMap catsUK))).map
        (fun m => m.StreamID) :=
  ((doPrefetch_schedules_uk_channels clientWithCats chanHeap 10
    (.error "x")).2 0 catsUK rfl (by decide) rfl).1

theorem cache.get_set_pos {V : Type} (c : cache.Cache V) (v : V)
    (ttl now : Nat) (hp : 0 < ttl) :
    cache.Get (cache.Set c v ttl now) now = some v := by
  simp only [cache.Get, cache.Set]
  rw [if_pos (Nat.lt_add_of_pos_right hp)]

theorem epgFetchPath_store_some (c : Client) (h : Heap EpgListing)
    (now : Nat) (sid : Int) (epg : List EpgListing) (raw : String)
    (m : List (Int × EpgData)) (hm : cache.Get c.EpgCache now = some m)
    (wf : ∀ k e, (k, e) ∈ m → e.Epg < Heap.size h) :
    (epgFetchPath c h now sid (.ok epg raw)).state.EpgCache =
      cache.Set c.EpgCache
        (mapPut (copyEntries (Heap.alloc h epg).1 m).2 sid
          ⟨(Heap.alloc (copyEntries (Heap.alloc h epg).1 m).1 epg).2, raw⟩)
        epgTTL now ∧
    (epgFetchPath c h now sid (.ok epg raw)).heap =
      (Heap.alloc (copyEntries (Heap.alloc h epg).1 m).1 epg).1 ∧
    (epgFetchPath c h now sid (.ok epg raw)).epg =
      some (Heap.alloc h epg).2 ∧
    (epgFetchPath c h now sid (.ok epg raw)).raw = raw ∧
    lookupContent (epgFetchPath c h now sid (.ok epg raw)).heap
      (mapPut (copyEntries (Heap.alloc h epg).1 m).2 sid
        ⟨(Heap.alloc (copyEntries (Heap.alloc h epg).1 m).1 epg).2, raw⟩)
      sid = some (epg, raw) ∧
    (∀ k, k ≠ sid →
      lookupContent (epgFetchPath c h now sid (.ok epg raw)).heap
        (mapPut (copyEntries (Heap.alloc h epg).1 m).2 sid
          ⟨(Heap.alloc (copyEntries (Heap.alloc h epg).1 m).1 epg).2, raw⟩)
        k = lookupContent h m k) ∧
    (∀ k e, (k, e) ∈ m →
      Heap.read (epgFetchPath c h now sid (.ok epg raw)).heap e.Epg =
        Heap.read h e.Epg) ∧
    Heap.read (epgFetchPath c h now sid (.ok epg raw)).heap
      (Heap.alloc h epg).2 = epg ∧
    (∀ k e, (k, e) ∈ mapPut (copyEntries (Heap.alloc h epg).1 m).2 sid
        ⟨(Heap.alloc (copyEntries (Heap.alloc h epg).1 m).1 epg).2, raw⟩ →
      e.Epg ≠ (Heap.alloc h epg).2 ∧
      e.Epg < Heap.size (epgFetchPath c h now sid (.ok epg raw)).heap) := by
  have wf1 : ∀ k e, (k, e) ∈ m → e.Epg < Heap.size (Heap.alloc h epg).1 := by
    intro k e hme
    rw [Heap.size_alloc]
    exact Nat.lt_succ_of_lt (wf k e hme)
  obtain ⟨g, bounds, lkp⟩ := copyEntries_spec m (Heap.alloc h epg).1 wf1
  have g0 : Heap.Grows h (Heap.alloc h epg).1 := Heap.alloc_grows _ _
  have g2 : Heap.Grows (copyEntries (Heap.alloc h epg).1 m).1
      (Heap.alloc (copyEntries (Heap.alloc h epg).1 m).1 epg).1 :=
    Heap.alloc_grows _ _
  have hheap : (epgFetchPath c h now sid (.ok epg raw)).heap =
      (Heap.alloc (copyEntries (Heap.alloc h epg).1 m).1 epg).1 := by
    simp [epgFetchPath, hm]
  have hret : Heap.read
      (Heap.alloc (copyEntries (Heap.alloc h epg).1 m).1 epg).1
      (Heap.alloc h epg).2 = epg := by
    have hlt : (Heap.alloc h epg).2 < Heap.size (Heap.alloc h epg).1 := by
      rw [Heap.size_alloc]
      exact Nat.lt_succ_self _
    rw [(Heap.Grows.trans g g2).read_lt hlt, Heap.read_alloc_self]
  have hstore : Heap.read
      (Heap.alloc (copyEntries (Heap.alloc h epg).1 m).1 epg).1
      (Heap.alloc (copyEntries (Heap.alloc h epg).1 m).1 epg).2 = epg :=
    Heap.read_alloc_self _ _
  have hsizes : Heap.size (Heap.alloc h epg).1 ≤
      Heap.size (copyEntries (Heap.alloc h epg).1 m).1 := g.size_le
  refine ⟨?_, hheap, ?_, ?_, ?_, ?_, ?_, ?_, ?_⟩
  · simp [epgFetchPath, hm]
  · simp [epgFetchPath, hm]
  · simp [epgFetchPath, hm]
  · rw [hheap]
    simp [lookupContent, mapLookup_put_self, hstore]
  · intro k hk
    rw [hheap]
    simp only [lookupContent,
      mapLookup_put_ne _ _ (fun hh : k = sid => hk hh)]
    have e1 : lookupContent
        (Heap.alloc (copyEntries (Heap.alloc h epg).1 m).1 epg).1
        (copyEntries (Heap.alloc h epg).1 m).2 k =
        lookupContent (copyEntries (Heap.alloc h epg).1 m).1
          (copyEntries (Heap.alloc h epg).1 m).2 k :=
      lookupContent_grows (fun k' e' hme => (bounds k' e' hme).2) g2 k
    have e2 := lkp k
    have e3 : lookupContent (Heap.alloc h epg).1 m k = lookupContent h m k :=
      lookupContent_grows wf g0 k
    have := (e1.trans e2).trans e3
    simpa [lookupContent] using this
  · intro k e hme
    rw [hheap]
    exact (Heap.Grows.trans g0 (Heap.Grows.trans g g2)).read_lt (wf k e hme)
  · rw [hheap]; exact hret
  · intro k e hme
    rw [hheap]
    rcases mapPut_mem hme with hin | ⟨_, he⟩
    · have hb := bounds k e hin
      constructor
      · intro heq
        have : (Heap.alloc h epg).2 < Heap.size (Heap.alloc h epg).1 := by
          rw [Heap.size_alloc]; exact Nat.lt_succ_self _
        omega
      · calc e.Epg < Heap.size (copyEntries (Heap.alloc h epg).1 m).1 := hb.2
          _ < _ := by rw [Heap.size_alloc]; exact Nat.lt_succ_self _
    · subst he
      have haS : ((copyEntries (Heap.alloc h epg).1 m).1.alloc epg).2 =
          Heap.size (copyEntries (Heap.alloc h epg).1 m).1 := rfl
      have haR : (Heap.alloc h epg).2 = Heap.size h := rfl
      have hs1 : Heap.size (Heap.alloc h epg).1 = Heap.size h + 1 :=
        Heap.size_alloc _ _
      constructor
      · intro heq
        simp only at heq
        omega
      · simp only
        rw [Heap.size_alloc]
        omega

theorem epgFetchPath_store_none (c : Client) (h : Heap EpgListing)
    (now : Nat) (sid : Int) (epg : List EpgListing) (raw : String)
    (hm : cache.Get c.EpgCache now = none) :
    (epgFetchPath c h now sid (.ok epg raw)).state.EpgCache =
      cache.Set c.EpgCache
        [(sid, ⟨((Heap.alloc h epg).1.alloc epg).2, raw⟩)] epgTTL now ∧
    (epgFetchPath c h now sid (.ok epg raw)).heap =
      ((Heap.alloc h epg).1.alloc epg).1 ∧
    (epgFetchPath c h now sid (.ok epg raw)).epg =
      some (Heap.alloc h epg).2 ∧
    (epgFetchPath c h now sid (.ok epg raw)).raw = raw ∧
    Heap.read (epgFetchPath c h now sid (.ok epg raw)).heap
      (Heap.alloc h epg).2 = epg ∧
    Heap.read (epgFetchPath c h now sid (.ok epg raw)).heap
      ((Heap.alloc h epg).1.alloc epg).2 = epg ∧
    ((Heap.alloc h epg).1.alloc epg).2 ≠ (Heap.alloc h epg).2 ∧
    ((Heap.alloc h epg).1.alloc epg).2 <
      Heap.size (epgFetchPath c h now sid (.ok epg raw)).heap := by
  have hheap : (epgFetchPath c h now sid (.ok epg raw)).heap =
      ((Heap.alloc h epg).1.alloc epg).1 := by
    simp [epgFetchPath, hm]
  have haR : (Heap.alloc h epg).2 = Heap.size h := rfl
  have haS : ((Heap.alloc h epg).1.alloc epg).2 =
      Heap.size (Heap.alloc h epg).1 := rfl
  have hs1 : Heap.size (Heap.alloc h epg).1 = Heap.size h + 1 :=
    Heap.size_alloc _ _
  refine ⟨?_, hheap, ?_, ?_, ?_, ?_, ?_, ?_⟩
  · simp [epgFetchPath, hm]
  · simp [epgFetchPath, hm]
  · simp [epgFetchPath, hm]
  · rw [hheap]
    have hlt : (Heap.alloc h epg).2 < Heap.size (Heap.alloc h epg).1 := by
      omega
    rw [(Heap.alloc_grows _ _).read_lt hlt, Heap.read_alloc_self]
  · rw [hheap]
    exact Heap.read_alloc_self _ _
  · omega
  · rw [hheap, Heap.size_alloc]
    omega

/-- Claim C5: on a program-guide cache miss with a successful fetch, the
newly cached map is a fresh value equal to the previously cached map (empty
when absent) plus an entry for this stream: the content looked up for every
other stream id is unchanged, and the listing slices the previous map
referenced are untouched - the call only allocates, never writes. -/
theorem epg_merge_copy_on_write (c : Client) (h : Heap EpgListing)
    (now : Nat) (sid : Int) (epg : List EpgListing) (raw : String)
    (hmiss : epgMiss c now sid) (hwf : epgWF c h now) :
    ∃ m', cache.Get (GetEpgForStream c h now sid (.ok epg raw)).state.EpgCache
        now = some m' ∧
      lookupContent (GetEpgForStream c h now sid (.ok epg raw)).heap m' sid =
        some (epg, raw) ∧
      (∀ k, k ≠ sid →
        lookupContent (GetEpgForStream c h now sid (.ok epg raw)).heap m' k =
          (cache.Get c.EpgCache now).elim none
            (fun m => lookupContent h m k)) ∧
      (∀ m, cache.Get c.EpgCache now = some m → ∀ k e, (k, e) ∈ m →
        Heap.read (GetEpgForStream c h now sid (.ok epg raw)).heap e.Epg =
          Heap.read h e.Epg) := by
  cases hm : cache.Get c.EpgCache now with
  | none =>
    have hred : GetEpgForStream c h now sid (.ok epg raw) =
        epgFetchPath c h now sid (.ok epg raw) := by
      simp [GetEpgForStream, hm]
    obtain ⟨e1, e2, e3, e4, e5, e6, e7, e8⟩ :=
      epgFetchPath_store_none c h now sid epg raw hm
    refine ⟨[(sid, ⟨((Heap.alloc h epg).1.alloc epg).2, raw⟩)], ?_, ?_, ?_, ?_⟩
    · rw [hred, e1]
      exact cache.get_set_pos _ _ _ _ (by decide)
    · rw [hred]
      simp [lookupContent, mapLookup, e6]
    · intro k hk
      rw [hred]
      have hne : ¬ sid = k := fun hh => hk hh.symm
      simp [lookupContent, mapLookup, hne]
    · intro m hmm
      exact Option.noConfusion hmm
  | some m =>
    have hlk := hmiss m hm
    have hred : GetEpgForStream c h now sid (.ok epg raw) =
        epgFetchPath c h now sid (.ok epg raw) := by
      simp [GetEpgForStream, hm, hlk]
    obtain ⟨e1, e2, e3, e4, e5, e6, e7, e8, e9⟩ :=
      epgFetchPath_store_some c h now sid epg raw m hm (hwf m hm)
    refine ⟨mapPut (copyEntries (Heap.alloc h epg).1 m).2 sid
      ⟨((copyEntries (Heap.alloc h epg).1 m).1.alloc epg).2, raw⟩,
      ?_, ?_, ?_, ?_⟩
    · rw [hred, e1]
      exact cache.get_set_pos _ _ _ _ (by decide)
    · rw [hred]
      exact e5
    · intro k hk
      rw [hred, e6 k hk]
      simp [hm]
    · intro m₀ hm₀
      injection hm₀ with hmh
      subst hmh
      intro k e hme
      rw [hred]
      exact e7 k e hme

/-- Witness for C5 on a fresh client and an empty heap. -/
theorem epg_merge_copy_on_write_witness :
    ∃ m', cache.Get (GetEpgForStream (NewClient cfgOff).1 [] 0 1
        (.ok [] "r")).state.EpgCache 0 = some m' ∧
      lookupContent (GetEpgForStream (NewClient cfgOff).1 [] 0 1
        (.ok [] "r")).heap m' 1 = some ([], "r") := by
  obtain ⟨m', h1, h2, _, _⟩ := epg_merge_copy_on_write (NewClient cfgOff).1
    [] 0 1 [] "r" (fun m hm => Option.noConfusion hm)
    (fun m hm => Option.noConfusion hm)
  exact ⟨m', h1, h2⟩

theorem lookupContent_write_ne {h : Heap EpgListing}
    {m : List (Int × EpgData)} {b : Nat} (v : List EpgListing)
    (hb : ∀ k e, mapLookup m k = some e → e.Epg ≠ b) (k : Int) :
    lookupContent (Heap.write h b v) m k = lookupContent h m k := by
  unfold lookupContent
  cases hl : mapLookup m k with
  | none => rfl
  | some e => simp [Heap.read_write_ne _ _ (hb k e hl)]

/-- Claim C9: GetEpgForStream never exposes cached program-guide state to
mutation.  On a hit it returns a freshly allocated copy of the cached slice
(at the first free address) with the client state unchanged, and
overwriting that returned slice leaves the content of every entry of the
cached map as it was.  On a miss with a successful fetch, the slice stored
in the cache is a fresh copy at an address distinct from the returned
slice, with the same content, and again overwriting the returned slice
changes no cached entry. -/
theorem epg_returns_defensive_copies (c : Client) (h : Heap EpgListing)
    (now : Nat) (sid : Int) (epg : List EpgListing) (raw : String)
    (hwf : epgWF c h now) :
    (∀ m e u, cache.Get c.EpgCache now = some m →
      mapLookup m sid = some e →
      (GetEpgForStream c h now sid u).epg = some (Heap.size h) ∧
      (GetEpgForStream c h now sid u).state = c ∧
      (GetEpgForStream c h now sid u).raw = e.Raw ∧
      Heap.read (GetEpgForStream c h now sid u).heap (Heap.size h) =
        Heap.read h e.Epg ∧
      (∀ v k, lookupContent
          (Heap.write (GetEpgForStream c h now sid u).heap (Heap.size h) v)
          m k = lookupContent (GetEpgForStream c h now sid u).heap m k)) ∧
    (epgMiss c now sid →
      ∃ aRet m',
        (GetEpgForStream c h now sid (.ok epg raw)).epg = some aRet ∧
        cache.Get (GetEpgForStream c h now sid (.ok epg raw)).state.EpgCache
          now = some m' ∧
        Heap.read (GetEpgForStream c h now sid (.ok epg raw)).heap aRet =
          epg ∧
        lookupContent (GetEpgForStream c h now sid (.ok epg raw)).heap m'
          sid = some (epg, raw) ∧
        (∀ k e, (k, e) ∈ m' → e.Epg ≠ aRet) ∧
        (∀ v k, lookupContent
            (Heap.write (GetEpgForStream c h now sid (.ok epg raw)).heap
              aRet v) m' k =
          lookupContent (GetEpgForStream c h now sid (.ok epg raw)).heap
            m' k)) := by
  constructor
  · intro m e u hm hl
    have hred : GetEpgForStream c h now sid u =
        ⟨some (Heap.alloc h (Heap.read h e.Epg)).2, e.Raw, none, c,
          (Heap.alloc h (Heap.read h e.Epg)).1, 0⟩ := by
      simp [GetEpgForStream, hm, hl]
    have hwfm := hwf m hm
    refine ⟨?_, ?_, ?_, ?_, ?_⟩
    · rw [hred]
      rfl
    · rw [hred]
    · rw [hred]
    · rw [hred]
      exact Heap.read_alloc_self _ _
    · intro v k
      rw [hred]
      exact lookupContent_write_ne v
        (fun k' e' hl' => by
          have := hwfm k' e' (mapLookup_mem hl')
          omega) k
  · intro hmiss
    cases hm : cache.Get c.EpgCache now with
    | none =>
      have hred : GetEpgForStream c h now sid (.ok epg raw) =
          epgFetchPath c h now sid (.ok epg raw) := by
        simp [GetEpgForStream, hm]
      obtain ⟨e1, e2, e3, e4, e5, e6, e7, e8⟩ :=
        epgFetchPath_store_none c h now sid epg raw hm
      refine ⟨(Heap.alloc h epg).2,
        [(sid, ⟨((Heap.alloc h epg).1.alloc epg).2, raw⟩)],
        ?_, ?_, ?_, ?_, ?_, ?_⟩
      · rw [hred]; exact e3
      · rw [hred, e1]
        exact cache.get_set_pos _ _ _ _ (by decide)
      · rw [hred]; exact e5
      · rw [hred]
        simp [lookupContent, mapLookup, e6]
      · intro k e hke
        have hp := List.mem_singleton.mp hke
        injection hp with hk he
        subst he
        simpa using e7
      · intro v k
        rw [hred]
        refine lookupContent_write_ne v ?_ k
        intro k' e' hl'
        have hp := mapLookup_mem hl'
        have hp2 := List.mem_singleton.mp hp
        injection hp2 with hk' he'
        subst he'
        simpa using e7
    | some m =>
      have hlk := hmiss m hm
      have hred : GetEpgForStream c h now sid (.ok epg raw) =
          epgFetchPath c h now sid (.ok epg raw) := by
        simp [GetEpgForStream, hm, hlk]
      obtain ⟨e1, e2, e3, e4, e5, e6, e7, e8, e9⟩ :=
        epgFetchPath_store_some c h now sid epg raw m hm (hwf m hm)
      refine ⟨(Heap.alloc h epg).2,
        mapPut (copyEntries (Heap.alloc h epg).1 m).2 sid
          ⟨((copyEntries (Heap.alloc h epg).1 m).1.alloc epg).2, raw⟩,
        ?_, ?_, ?_, ?_, ?_, ?_⟩
      · rw [hred]; exact e3
      · rw [hred, e1]
        exact cache.get_set_pos _ _ _ _ (by decide)
      · rw [hred]; exact e8
      · rw [hred]; exact e5
      · intro k e hke
        exact (e9 k e hke).1
      · intro v k
        rw [hred]
        refine lookupContent_write_ne v ?_ k
        intro k' e' hl'
        exact (e9 k' e' (mapLookup_mem hl')).1

/-- A concrete EPG listing for witnesses. -/
def epgListing1 : EpgListing := ⟨"i", "e", "c", 0, 10, "en", "T", "D"⟩

/-- The client state after one successful EPG fetch for stream 1 on a fresh
client. -/
def epgClient : Client :=
  (GetEpgForStream (NewClient cfgOff).1 [] 0 1 (.ok [epgListing1] "r")).state

/-- The EPG heap after that same fetch. -/
def epgHeap : Heap EpgListing :=
  (GetEpgForStream (NewClient cfgOff).1 [] 0 1 (.ok [epgListing1] "r")).heap

/-- Witness for C9: a cache hit on the concrete post-fetch state leaves the
client unchanged. -/
theorem epg_returns_defensive_copies_witness :
    (GetEpgForStream epgClient epgHeap 0 1 (.fail "" "ignored")).state =
      epgClient := by
  have hw : epgWF epgClient epgHeap 0 := by
    intro m hm
    have hm' : some [((1 : Int), (⟨1, "r"⟩ : EpgData))] = some m := hm
    cases hm'
    intro k e hke
    have hp := List.mem_singleton.mp hke
    injection hp with hk he
    subst he
    decide
  exact (((epg_returns_defensive_copies epgClient epgHeap 0 1 [] "" hw).1)
    [((1 : Int), ⟨1, "r"⟩)] ⟨1, "r"⟩ (.fail "" "ignored") rfl rfl).2.1

/-- A program listing running from 900 to 1100, current at instant 1000. -/
def progListing : EpgListing := ⟨"p", "e", "ch", 900, 1100, "en", "News", "d"⟩

/-- The channel heap after rendering page 1 at instant 1000 over the cached
slice of chanHeap: the handler goroutine attaches the current program to
the item, writing through the shared backing array. -/
def enrichedHeap : Heap MediaItem :=
  homeEnrichEPG chanHeap 0 1 15 1000 (fun _ => some [progListing])

/-- Claim C3 counterexample: after the refresh behind clientAfterRefresh
and a page render that attached a current program, a later GetLiveStreams
call within the TTL is a cache hit that returns the cached slice whose item
now carries that program: the enrichment was persisted into the channel
cache by the render's write through the shared backing array. -/
theorem channel_cache_enrichment_persists_counterexample :
    (GetLiveStreams clientAfterRefresh enrichedHeap 50 (.error "x")).result =
      .ok 0 ∧
    (GetLiveStreams clientAfterRefresh enrichedHeap 50
      (.error "x")).upstreamCalls = 0 ∧
    (Heap.read (GetLiveStreams clientAfterRefresh enrichedHeap 50
      (.error "x")).heap 0).map (fun m => m.CurrentProgram) =
      [some progListing] := by
  refine ⟨rfl, rfl, by decide⟩

/-- Claim C3 amended: items enter the channel cache with both enrichment
fields unset (the fetch constructs them nil), but GetLiveStreams stores and
returns the same slice reference without copying, so when the rendering
layer writes CurrentProgram and NextProgram through the slice it was
handed, the cached items at the rendered positions carry that enrichment
and a later cache hit returns it (the hit returns exactly the cached
address with the heap untouched). -/
theorem channel_items_cached_unset_but_shared (b us pw : String)
    (raw : List RawStream) (c : Client) (ch : Heap MediaItem) (now : Nat)
    (uo : Except String (List RawStream)) (a : Nat)
    (hhit : cache.Get c.Cache now = some a) :
    (∀ item ∈ buildMediaItems b us pw raw,
      item.CurrentProgram = none ∧ item.NextProgram = none) ∧
    GetLiveStreams c ch now uo = ⟨.ok a, c, ch, 0, false⟩ := by
  constructor
  · intro item hitem
    simp only [buildMediaItems, List.mem_map] at hitem
    obtain ⟨r, _, rfl⟩ := hitem
    exact ⟨rfl, rfl⟩
  · simp [GetLiveStreams, hhit]

/-- Witness for the amended C3 theorem: the concrete post-render hit
returns the enriched cached slice untouched. -/
theorem channel_items_cached_unset_but_shared_witness :
    GetLiveStreams clientAfterRefresh enrichedHeap 50 (.error "y") =
      ⟨.ok 0, clientAfterRefresh, enrichedHeap, 0, false⟩ :=
  (channel_items_cached_unset_but_shared "b" "u" "p" [] clientAfterRefresh
    enrichedHeap 50 (.error "y") 0 (by decide)).2
